import Mathlib

/-!
Formal model of the chunk container core of the Pngme repository
(src/src/chunk_type.rs and src/src/chunk.rs), with theorems checking the
natural-language specification against the code.

Byte buffers are modelled as `List Nat` (a Rust `&[u8]` / `Vec<u8>`),
machine integers as `Nat` with explicit `% 2 ^ 32` at the places where
the Rust code casts with `as u32`.  Fallible operations return `Except`
or an explicit result type; a Rust panic (out-of-bounds `split_at`) is a
distinguished outcome, never a value.
-/

set_option maxRecDepth 100000

namespace Pngme

/-- Big-endian read of four bytes as a u32, from `bytes_to_u32` in
src/src/chunk.rs (the `<<` shifts become multiplications on `Nat`; for
byte inputs the sum never exceeds 2 ^ 32, as in the Rust code). -/
def bytesToU32 (value : List Nat) : Nat :=
  (value.getD 0 0) * 2 ^ 24 + (value.getD 1 0) * 2 ^ 16 +
    (value.getD 2 0) * 2 ^ 8 + (value.getD 3 0)

/-- Big-endian bytes of a u32, modelling Rust's `u32::to_be_bytes` as
used by `Chunk::as_bytes` in src/src/chunk.rs. -/
def toBeBytes (n : Nat) : List Nat :=
  [n / 2 ^ 24 % 256, n / 2 ^ 16 % 256, n / 2 ^ 8 % 256, n % 256]

/-- Rust's `slice::split_at(mid)`: defined for `mid ≤ len`, and panics
otherwise; `none` stands for the panic. -/
def rustSplitAt (mid : Nat) (l : List Nat) : Option (List Nat × List Nat) :=
  if mid ≤ l.length then some (l.take mid, l.drop mid) else none

/-- Modelled from the spec: one bit step of CRC-32/ISO-HDLC (reflected
polynomial 0xEDB88320), the algorithm behind the external `crc` crate's
`CRC_32_ISO_HDLC` used in src/src/chunk.rs. -/
def crcStep (c : Nat) : Nat :=
  if c % 2 = 1 then c / 2 ^^^ 0xEDB88320 else c / 2

/-- Eight bit steps, processing one byte's worth of CRC state. -/
def crcStep8 (c : Nat) : Nat :=
  crcStep (crcStep (crcStep (crcStep (crcStep (crcStep (crcStep (crcStep c)))))))

/-- Absorb one input byte into the CRC state. -/
def crcByte (c b : Nat) : Nat :=
  crcStep8 (c ^^^ b)

/-- Run the CRC state machine over a byte list from a given state. -/
def crc32Aux (c : Nat) (l : List Nat) : Nat :=
  l.foldl crcByte c

/-- Modelled from the spec: CRC-32/ISO-HDLC over a byte list (initial
state 0xFFFFFFFF, reflected, final xor 0xFFFFFFFF), the checksum
computed by `crc::Crc::<u32>::new(&CRC_32_ISO_HDLC).checksum` in
src/src/chunk.rs. -/
def crc32 (l : List Nat) : Nat :=
  crc32Aux 0xFFFFFFFF l ^^^ 0xFFFFFFFF

/-- Rust's `u8::is_ascii_alphabetic`: an ASCII letter byte. -/
def isAsciiAlphabetic (b : Nat) : Bool :=
  (65 ≤ b && b ≤ 90) || (97 ≤ b && b ≤ 122)

/-- The 4-byte chunk type identifier of src/src/chunk_type.rs (field
`_data : [u8; 4]`, one field per byte here). -/
structure ChunkType where
  d0 : Nat
  d1 : Nat
  d2 : Nat
  d3 : Nat
deriving DecidableEq

/-- Accessor `ChunkType::bytes` of src/src/chunk_type.rs. -/
def ChunkType.bytes (t : ChunkType) : List Nat :=
  [t.d0, t.d1, t.d2, t.d3]

/-- Flag query `ChunkType::is_critical` of src/src/chunk_type.rs. -/
def ChunkType.is_critical (t : ChunkType) : Bool :=
  t.d0 &&& 32 == 0

/-- Flag query `ChunkType::is_public` of src/src/chunk_type.rs. -/
def ChunkType.is_public (t : ChunkType) : Bool :=
  t.d1 &&& 32 == 0

/-- Flag query `ChunkType::is_reserved_bit_valid` of src/src/chunk_type.rs. -/
def ChunkType.is_reserved_bit_valid (t : ChunkType) : Bool :=
  t.d2 &&& 32 == 0

/-- Flag query `ChunkType::is_safe_to_copy` of src/src/chunk_type.rs. -/
def ChunkType.is_safe_to_copy (t : ChunkType) : Bool :=
  t.d3 &&& 32 != 0

/-- Validity check `ChunkType::is_valid` of src/src/chunk_type.rs. -/
def ChunkType.is_valid (t : ChunkType) : Bool :=
  isAsciiAlphabetic t.d0 && isAsciiAlphabetic t.d1 &&
    isAsciiAlphabetic t.d2 && isAsciiAlphabetic t.d3 && t.is_reserved_bit_valid

/-- The `PartialEq` implementation for `ChunkType` in
src/src/chunk_type.rs: it compares only bit 5 (value 32) of each of the
four bytes. -/
def ChunkType.beq (a b : ChunkType) : Bool :=
  a.d0 &&& 32 == b.d0 &&& 32 && (a.d1 &&& 32 == b.d1 &&& 32) &&
    (a.d2 &&& 32 == b.d2 &&& 32) && (a.d3 &&& 32 == b.d3 &&& 32)

/-- Error kinds of `ChunkType::from_str` in src/src/chunk_type.rs (the
two distinct `anyhow!` messages). -/
inductive ChunkTypeError where
  | tooShort
  | invalidCharacter
deriving DecidableEq

/-- Parser `ChunkType::from_str` of src/src/chunk_type.rs, over the
UTF-8 bytes of the input string (`s.len()` and `s.as_bytes()[i]` in the
source are byte-level operations). -/
def ChunkType.fromStr (s : List Nat) : Except ChunkTypeError ChunkType :=
  if s.length < 4 then
    .error .tooShort
  else
    if isAsciiAlphabetic (s.getD 0 0) && isAsciiAlphabetic (s.getD 1 0) &&
        isAsciiAlphabetic (s.getD 2 0) && isAsciiAlphabetic (s.getD 3 0) then
      .ok ⟨s.getD 0 0, s.getD 1 0, s.getD 2 0, s.getD 3 0⟩
    else
      .error .invalidCharacter

/-- The chunk record of src/src/chunk.rs (fields `_length`, `_type`,
`_data`, `_crc`). -/
structure Chunk where
  length : Nat
  ctype : ChunkType
  data : List Nat
  crc : Nat
deriving DecidableEq

/-- Serializer `Chunk::as_bytes` of src/src/chunk.rs: big-endian length,
type bytes, payload, big-endian CRC. -/
def Chunk.as_bytes (c : Chunk) : List Nat :=
  toBeBytes c.length ++ c.ctype.bytes ++ c.data ++ toBeBytes c.crc

/-- Constructor `Chunk::new` of src/src/chunk.rs: stores
`_data.len() as u32` as the length, then recomputes the CRC over the
serialized bytes with the first four (length) and last four (crc)
stripped.  Both `split_at` calls there have `mid ≤ len`, so they cannot
panic and are rendered with `take`/`drop`. -/
def Chunk.new (t : ChunkType) (d : List Nat) : Chunk :=
  let c0 : Chunk := ⟨d.length % 2 ^ 32, t, d, 0⟩
  let rest := c0.as_bytes.drop 4
  let region := rest.take (rest.length - 4)
  ⟨d.length % 2 ^ 32, t, d, crc32 region⟩

/-- Error kinds of `Chunk::try_from` in src/src/chunk.rs: the two
`anyhow!` messages ("Too Short" and "Wrong CRC", the latter reporting
the stored value and the recomputed value it should have been), plus the
`?`-propagated slice conversion error (unreachable in practice). -/
inductive ChunkError where
  | tooShort
  | crcMismatch (expected actual : Nat)
  | sliceConversion
deriving DecidableEq

/-- Outcome of `Chunk::try_from`: a chunk, a returned error, or a Rust
panic from an out-of-bounds `split_at`. -/
inductive ParseResult where
  | ok (c : Chunk)
  | err (e : ChunkError)
  | panicked
deriving DecidableEq

/-- Parser `Chunk::try_from(&[u8])` of src/src/chunk.rs, step for step:
reject buffers shorter than 12, read the big-endian length `N`, compare
it against `rest.len() as u32`, split off `N + 8` bytes (this split can
panic), split those into the checksum region and the stored CRC,
recompute and compare the CRC, and finally split the region into type
and payload. -/
def Chunk.tryFrom (value : List Nat) : ParseResult :=
  if value.length < 12 then
    .err .tooShort
  else
    match rustSplitAt 4 value with
    | none => .panicked
    | some (len, rest) =>
      if bytesToU32 len > rest.length % 2 ^ 32 then
        .err .tooShort
      else
        match rustSplitAt (bytesToU32 len + 8) rest with
        | none => .panicked
        | some (rest2, _) =>
          match rustSplitAt (bytesToU32 len + 4) rest2 with
          | none => .panicked
          | some (rest3, crcb) =>
            if bytesToU32 crcb ≠ crc32 rest3 then
              .err (.crcMismatch (crc32 rest3) (bytesToU32 crcb))
            else
              match rustSplitAt 4 rest3 with
              | none => .panicked
              | some (ct, d) =>
                match ct with
                | [a, b, c, e] => .ok ⟨bytesToU32 len, ⟨a, b, c, e⟩, d, crc32 rest3⟩
                | _ => .err .sliceConversion

/-- Checksum region the parser recomputes the CRC over: the `N + 4`
bytes after the length field (type bytes followed by payload). -/
def parseRegion (buf : List Nat) : List Nat :=
  (buf.drop 4).take (bytesToU32 (buf.take 4) + 4)

/-- Stored CRC of a chunk buffer: the big-endian u32 directly after the
checksum region. -/
def storedCrc (buf : List Nat) : Nat :=
  bytesToU32 (((buf.drop 4).drop (bytesToU32 (buf.take 4) + 4)).take 4)

/-- Spec-side predicate: the byte is an ASCII letter. -/
def isAsciiLetter (b : Nat) : Prop :=
  (65 ≤ b ∧ b ≤ 90) ∨ (97 ≤ b ∧ b ≤ 122)

instance (b : Nat) : Decidable (isAsciiLetter b) := by
  unfold isAsciiLetter
  infer_instance

/-- Validation of the CRC model: the CRC-32/ISO-HDLC check value, the
checksum of the ASCII bytes of "123456789", is 0xCBF43926. -/
theorem crc32_check_value :
    crc32 [0x31, 0x32, 0x33, 0x34, 0x35, 0x36, 0x37, 0x38, 0x39] = 0xCBF43926 := by
  decide

/-- Validation of the CRC model against the repository's own test
vector: the checksum of the type bytes of "RuSt" followed by the ASCII
bytes of "This is where your secret message will be!" is 2882656334
(tests in src/src/chunk.rs). -/
theorem crc32_repo_test_vector :
    crc32 [82, 117, 83, 116,
      84, 104, 105, 115, 32, 105, 115, 32, 119, 104, 101, 114, 101, 32,
      121, 111, 117, 114, 32, 115, 101, 99, 114, 101, 116, 32, 109, 101,
      115, 115, 97, 103, 101, 32, 119, 105, 108, 108, 32, 98, 101, 33] = 2882656334 := by
  decide

theorem isAsciiAlphabetic_iff (b : Nat) :
    isAsciiAlphabetic b = true ↔ isAsciiLetter b := by
  simp [isAsciiAlphabetic, isAsciiLetter]


theorem and_32_eq_zero_iff (n : Nat) : n &&& 32 = 0 ↔ n.testBit 5 = false := by
  have h32 : (32 : Nat) = 2 ^ 5 := by norm_num
  rw [h32, Nat.and_two_pow]
  cases h : n.testBit 5 <;> simp

/-- claim C6: parsing any buffer of fewer than 12 bytes fails with the
TooShort error. -/
theorem parse_short_buffer_too_short (v : List Nat) (h : v.length < 12) :
    Chunk.tryFrom v = .err .tooShort := by
  simp [Chunk.tryFrom, h]

/-- Witness for C6 at the empty buffer. -/
theorem parse_short_buffer_too_short_witness :
    Chunk.tryFrom [] = ParseResult.err ChunkError.tooShort :=
  parse_short_buffer_too_short [] (by decide)

/-- claim C2 (failing input): on the 12-byte buffer whose declared
length is 5, both of the parser's own guards pass (12 ≥ 12 and 5 ≤ 8),
yet only 8 bytes remain after the length field where 5 + 8 = 13 are
required, so `rest.split_at(N + 8)` is called with `mid = 13 > 8` and
the Rust code panics instead of returning a TooShort error. -/
theorem parse_truncated_payload_panics :
    Chunk.tryFrom [0, 0, 0, 5, 0, 0, 0, 0, 0, 0, 0, 0] = .panicked := by
  decide

/-- claim C3 (failing input): the source's PartialEq considers the
distinct identifiers "RuSt" and "TeXt" equal, because it only compares
bit 5 of each byte and the two share the same case pattern. -/
theorem chunkType_eq_defect :
    ChunkType.beq ⟨82, 117, 83, 116⟩ ⟨84, 101, 88, 116⟩ = true ∧
      ChunkType.mk 82 117 83 116 ≠ ChunkType.mk 84 101 88 116 := by
  decide

/-- claim C7: the flag queries are pure functions of the stored bytes
with the stated polarities (critical, public and reserved-bit-valid hold
when bit 5 of bytes 0, 1 and 2 respectively is 0, safe-to-copy when bit
5 of byte 3 is 1, and validity means four ASCII letters plus the
reserved-bit check); concretely, the bytes of "RuSt" are valid and the
bytes of "Rust" are not. -/
theorem chunkType_flag_polarities :
    (∀ t : ChunkType,
      (t.is_critical = true ↔ t.d0.testBit 5 = false) ∧
      (t.is_public = true ↔ t.d1.testBit 5 = false) ∧
      (t.is_reserved_bit_valid = true ↔ t.d2.testBit 5 = false) ∧
      (t.is_safe_to_copy = true ↔ t.d3.testBit 5 = true) ∧
      (t.is_valid = true ↔
        (isAsciiLetter t.d0 ∧ isAsciiLetter t.d1 ∧ isAsciiLetter t.d2 ∧
          isAsciiLetter t.d3 ∧ t.is_reserved_bit_valid = true))) ∧
    ChunkType.is_valid ⟨82, 117, 83, 116⟩ = true ∧
    ChunkType.is_valid ⟨82, 117, 115, 116⟩ = false := by
  refine ⟨fun t => ⟨?_, ?_, ?_, ?_, ?_⟩, by decide, by decide⟩
  · simp [ChunkType.is_critical, and_32_eq_zero_iff]
  · simp [ChunkType.is_public, and_32_eq_zero_iff]
  · simp [ChunkType.is_reserved_bit_valid, and_32_eq_zero_iff]
  · simp only [ChunkType.is_safe_to_copy, bne_iff_ne, ne_eq,
      show (32 : Nat) = 2 ^ 5 by norm_num, Nat.and_two_pow]
    cases h : t.d3.testBit 5 <;> simp
  · simp [ChunkType.is_valid, isAsciiAlphabetic_iff, and_assoc]

/-- claim C8: parsing a chunk type from a string fails with one of the
two InvalidChunkType errors when the input has fewer than 4 bytes or one
of the first 4 bytes is not an ASCII letter, succeeds with the type
built from the first 4 bytes otherwise, and never looks past the fourth
byte. -/
theorem chunkType_fromStr_spec (s : List Nat) :
    ChunkType.fromStr s = ChunkType.fromStr (s.take 4) ∧
    ((4 ≤ s.length ∧ ∀ i, i < 4 → isAsciiLetter (s.getD i 0)) →
      ChunkType.fromStr s = Except.ok ⟨s.getD 0 0, s.getD 1 0, s.getD 2 0, s.getD 3 0⟩) ∧
    ((s.length < 4 ∨ ∃ i, i < 4 ∧ ¬ isAsciiLetter (s.getD i 0)) →
      ∃ e, ChunkType.fromStr s = Except.error e) := by
  refine ⟨?_, ?_, ?_⟩
  · by_cases h : s.length < 4
    · rw [List.take_of_length_le (by omega)]
    · have hlen : ¬ (s.take 4).length < 4 := by simp; omega
      have hg : ∀ i, i < 4 → (s.take 4).getD i 0 = s.getD i 0 := fun i hi => by
        simp [List.getD_eq_getElem?_getD, List.getElem?_take_of_lt hi]
      unfold ChunkType.fromStr
      rw [if_neg h, if_neg hlen, hg 0 (by norm_num), hg 1 (by norm_num),
        hg 2 (by norm_num), hg 3 (by norm_num)]
  · rintro ⟨h4, hall⟩
    have h0 := (isAsciiAlphabetic_iff _).2 (hall 0 (by norm_num))
    have h1 := (isAsciiAlphabetic_iff _).2 (hall 1 (by norm_num))
    have h2 := (isAsciiAlphabetic_iff _).2 (hall 2 (by norm_num))
    have h3 := (isAsciiAlphabetic_iff _).2 (hall 3 (by norm_num))
    unfold ChunkType.fromStr
    rw [if_neg (by omega),
      if_pos (by rw [Bool.and_eq_true, Bool.and_eq_true, Bool.and_eq_true]
                 exact ⟨⟨⟨h0, h1⟩, h2⟩, h3⟩)]
  · intro h
    unfold ChunkType.fromStr
    by_cases hlen : s.length < 4
    · exact ⟨.tooShort, by rw [if_pos hlen]⟩
    · rcases h with h | ⟨i, hi, hletter⟩
      · omega
      · have hcond : ¬ (isAsciiAlphabetic (s.getD 0 0) && isAsciiAlphabetic (s.getD 1 0) &&
            isAsciiAlphabetic (s.getD 2 0) && isAsciiAlphabetic (s.getD 3 0)) = true := by
          intro hc
          simp only [Bool.and_eq_true] at hc
          obtain ⟨⟨⟨ha0, ha1⟩, ha2⟩, ha3⟩ := hc
          interval_cases i
          · exact hletter ((isAsciiAlphabetic_iff _).1 ha0)
          · exact hletter ((isAsciiAlphabetic_iff _).1 ha1)
          · exact hletter ((isAsciiAlphabetic_iff _).1 ha2)
          · exact hletter ((isAsciiAlphabetic_iff _).1 ha3)
        exact ⟨.invalidCharacter, by rw [if_neg hlen, if_neg hcond]⟩

/-- Witness for C8: "RuSt" with a trailing byte parses to the "RuSt"
chunk type, the fifth byte being ignored. -/
theorem chunkType_fromStr_spec_witness :
    ChunkType.fromStr [82, 117, 83, 116, 99] = Except.ok ⟨82, 117, 83, 116⟩ :=
  (chunkType_fromStr_spec [82, 117, 83, 116, 99]).2.1 (by decide)

theorem length_toBeBytes (n : Nat) : (toBeBytes n).length = 4 := rfl

/-- Closed form of `Chunk::new`: the stored length is the payload length
truncated to u32, and the CRC is computed over the type bytes followed
by the payload. -/
theorem chunk_new_eq (t : ChunkType) (d : List Nat) :
    Chunk.new t d = ⟨d.length % 2 ^ 32, t, d, crc32 (t.bytes ++ d)⟩ := by
  simp only [Chunk.new, Chunk.as_bytes, Chunk.mk.injEq, true_and]
  congr 1
  rw [show toBeBytes (d.length % 2 ^ 32) ++ t.bytes ++ d ++ toBeBytes 0 =
      toBeBytes (d.length % 2 ^ 32) ++ ((t.bytes ++ d) ++ toBeBytes 0) by
    simp [List.append_assoc]]
  rw [List.drop_left' (length_toBeBytes _)]
  have h2 : ((t.bytes ++ d) ++ toBeBytes 0).length - 4 = (t.bytes ++ d).length := by
    simp [ChunkType.bytes, toBeBytes]
  rw [h2, List.take_left]

theorem chunk_new_length (t : ChunkType) (d : List Nat) :
    (Chunk.new t d).length = d.length % 2 ^ 32 := by
  rw [chunk_new_eq]

theorem chunk_new_as_bytes (t : ChunkType) (d : List Nat) :
    (Chunk.new t d).as_bytes =
      toBeBytes (d.length % 2 ^ 32) ++
        ((t.bytes ++ d) ++ toBeBytes (crc32 (t.bytes ++ d))) := by
  rw [chunk_new_eq]
  simp only [Chunk.as_bytes]
  simp [List.append_assoc]

/-- claim C4 (amended with the length bound the u32 cast imposes): for a
payload of fewer than 2 ^ 32 bytes, `new` stores the payload length and
the CRC-32/ISO-HDLC of type bytes followed by payload, and serializes to
big-endian length, type bytes, payload and big-endian CRC, 12 + length
bytes in total. -/
theorem chunk_new_spec (t : ChunkType) (d : List Nat) (h : d.length < 2 ^ 32) :
    (Chunk.new t d).length = d.length ∧
    (Chunk.new t d).crc = crc32 (t.bytes ++ d) ∧
    (Chunk.new t d).as_bytes =
      toBeBytes d.length ++ t.bytes ++ d ++ toBeBytes (crc32 (t.bytes ++ d)) ∧
    (Chunk.new t d).as_bytes.length = 12 + d.length := by
  rw [chunk_new_eq, Nat.mod_eq_of_lt h]
  refine ⟨rfl, rfl, rfl, ?_⟩
  simp [Chunk.as_bytes, ChunkType.bytes, toBeBytes]
  omega

/-- Witness for C4 at the "RuSt" type and a three-byte payload. -/
theorem chunk_new_spec_witness :
    (Chunk.new ⟨82, 117, 83, 116⟩ [1, 2, 3]).length = [1, 2, 3].length ∧
    (Chunk.new ⟨82, 117, 83, 116⟩ [1, 2, 3]).crc =
      crc32 (ChunkType.bytes ⟨82, 117, 83, 116⟩ ++ [1, 2, 3]) ∧
    (Chunk.new ⟨82, 117, 83, 116⟩ [1, 2, 3]).as_bytes =
      toBeBytes [1, 2, 3].length ++ ChunkType.bytes ⟨82, 117, 83, 116⟩ ++ [1, 2, 3] ++
        toBeBytes (crc32 (ChunkType.bytes ⟨82, 117, 83, 116⟩ ++ [1, 2, 3])) ∧
    (Chunk.new ⟨82, 117, 83, 116⟩ [1, 2, 3]).as_bytes.length = 12 + [1, 2, 3].length :=
  chunk_new_spec ⟨82, 117, 83, 116⟩ [1, 2, 3] (by norm_num)

theorem rustSplitAt_some (mid : Nat) (l : List Nat) (h : mid ≤ l.length) :
    rustSplitAt mid l = some (l.take mid, l.drop mid) := by
  unfold rustSplitAt
  rw [if_pos h]

theorem rustSplitAt_eq_some_iff (mid : Nat) (l : List Nat) (p : List Nat × List Nat) :
    rustSplitAt mid l = some p ↔ mid ≤ l.length ∧ p = (l.take mid, l.drop mid) := by
  constructor
  · intro hp
    unfold rustSplitAt at hp
    by_cases h : mid ≤ l.length
    · rw [if_pos h] at hp
      exact ⟨h, (Option.some_inj.1 hp).symm⟩
    · rw [if_neg h] at hp
      cases hp
  · rintro ⟨h, rfl⟩
    exact rustSplitAt_some mid l h

theorem take4_eq (l : List Nat) (h : 4 ≤ l.length) :
    l.take 4 = [l.getD 0 0, l.getD 1 0, l.getD 2 0, l.getD 3 0] := by
  rcases l with _ | ⟨a, _ | ⟨b, _ | ⟨c, _ | ⟨d, rest⟩⟩⟩⟩
  · simp at h
  · simp at h
  · simp at h
  · simp at h
  · rfl

/-- Structure of a successful or CRC-failing parse: once the length
checks pass, the parser is the CRC comparison between the stored CRC and
the recomputed one over the checksum region. -/
theorem tryFrom_eq_of_checks (buf : List Nat)
    (h12 : 12 ≤ buf.length)
    (hchk : ¬ bytesToU32 (buf.take 4) > (buf.length - 4) % 2 ^ 32)
    (hsplit : bytesToU32 (buf.take 4) + 8 ≤ buf.length - 4) :
    Chunk.tryFrom buf =
      if storedCrc buf ≠ crc32 (parseRegion buf) then
        .err (.crcMismatch (crc32 (parseRegion buf)) (storedCrc buf))
      else
        .ok ⟨bytesToU32 (buf.take 4),
          ⟨(parseRegion buf).getD 0 0, (parseRegion buf).getD 1 0,
            (parseRegion buf).getD 2 0, (parseRegion buf).getD 3 0⟩,
          (parseRegion buf).drop 4, crc32 (parseRegion buf)⟩ := by
  have hld : (buf.drop 4).length = buf.length - 4 := by simp
  have hreg : ((buf.drop 4).take (bytesToU32 (buf.take 4) + 8)).take
      (bytesToU32 (buf.take 4) + 4) = parseRegion buf := by
    rw [List.take_take, parseRegion, Nat.min_def, if_pos (by omega)]
  have hcrcb : ((buf.drop 4).take (bytesToU32 (buf.take 4) + 8)).drop
      (bytesToU32 (buf.take 4) + 4) =
      ((buf.drop 4).drop (bytesToU32 (buf.take 4) + 4)).take 4 := by
    rw [List.drop_take]
    congr 1
    omega
  have hreglen : (parseRegion buf).length = bytesToU32 (buf.take 4) + 4 := by
    rw [parseRegion, List.length_take, hld, Nat.min_def, if_pos (by omega)]
  unfold Chunk.tryFrom
  rw [if_neg (by omega), rustSplitAt_some 4 buf (by omega)]
  simp only []
  rw [hld, if_neg hchk,
    rustSplitAt_some (bytesToU32 (buf.take 4) + 8) (buf.drop 4) (by omega)]
  simp only []
  rw [rustSplitAt_some (bytesToU32 (buf.take 4) + 4)
    ((buf.drop 4).take (bytesToU32 (buf.take 4) + 8))
    (by rw [List.length_take]; omega)]
  simp only []
  rw [hreg, hcrcb, ← storedCrc,
    rustSplitAt_some 4 (parseRegion buf) (by omega),
    take4_eq (parseRegion buf) (by omega)]

/-- Inversion of a successful parse: all guards passed, the `N + 8` byte
split was in bounds, and the stored CRC matches the recomputed one. -/
theorem tryFrom_ok_inv (buf : List Nat) (c : Chunk)
    (h : Chunk.tryFrom buf = .ok c) :
    12 ≤ buf.length ∧
    ¬ bytesToU32 (buf.take 4) > (buf.length - 4) % 2 ^ 32 ∧
    bytesToU32 (buf.take 4) + 8 ≤ buf.length - 4 ∧
    storedCrc buf = crc32 (parseRegion buf) := by
  have hld : (buf.drop 4).length = buf.length - 4 := by simp
  by_cases h12 : buf.length < 12
  · unfold Chunk.tryFrom at h
    rw [if_pos h12] at h
    cases h
  · unfold Chunk.tryFrom at h
    rw [if_neg h12, rustSplitAt_some 4 buf (by omega)] at h
    simp only [] at h
    by_cases hchk : bytesToU32 (buf.take 4) > (buf.drop 4).length % 2 ^ 32
    · rw [if_pos hchk] at h
      cases h
    · rw [if_neg hchk] at h
      rw [hld] at hchk
      rcases hsp : rustSplitAt (bytesToU32 (buf.take 4) + 8) (buf.drop 4)
        with _ | ⟨rest2, rem⟩
      · rw [hsp] at h
        cases h
      · rw [hsp] at h
        rw [rustSplitAt_eq_some_iff] at hsp
        obtain ⟨hle, hp⟩ := hsp
        injection hp with h1 h2
        subst h1
        simp only [] at h
        rw [hld] at hle
        refine ⟨by omega, hchk, hle, ?_⟩
        rw [rustSplitAt_some (bytesToU32 (buf.take 4) + 4)
          ((buf.drop 4).take (bytesToU32 (buf.take 4) + 8))
          (by rw [List.length_take]; omega)] at h
        simp only [] at h
        by_cases hcrc : bytesToU32 (((buf.drop 4).take (bytesToU32 (buf.take 4) + 8)).drop
            (bytesToU32 (buf.take 4) + 4)) ≠
            crc32 (((buf.drop 4).take (bytesToU32 (buf.take 4) + 8)).take
              (bytesToU32 (buf.take 4) + 4))
        · rw [if_pos hcrc] at h
          cases h
        · rw [not_ne_iff] at hcrc
          have hreg : ((buf.drop 4).take (bytesToU32 (buf.take 4) + 8)).take
              (bytesToU32 (buf.take 4) + 4) = parseRegion buf := by
            rw [List.take_take, parseRegion, Nat.min_def, if_pos (by omega)]
          have hcrcb : ((buf.drop 4).take (bytesToU32 (buf.take 4) + 8)).drop
              (bytesToU32 (buf.take 4) + 4) =
              ((buf.drop 4).drop (bytesToU32 (buf.take 4) + 4)).take 4 := by
            rw [List.drop_take]
            congr 1
            omega
          rw [hreg, hcrcb] at hcrc
          exact hcrc

theorem crcStep_lt (c : Nat) (h : c < 2 ^ 32) : crcStep c < 2 ^ 32 := by
  unfold crcStep
  split
  · exact Nat.xor_lt_two_pow (by omega) (by norm_num)
  · omega

theorem crcStep8_lt (c : Nat) (h : c < 2 ^ 32) : crcStep8 c < 2 ^ 32 := by
  unfold crcStep8
  exact crcStep_lt _ (crcStep_lt _ (crcStep_lt _ (crcStep_lt _ (crcStep_lt _
    (crcStep_lt _ (crcStep_lt _ (crcStep_lt _ h)))))))

theorem crc32Aux_lt (l : List Nat) (hl : ∀ b ∈ l, b < 2 ^ 32) (c : Nat)
    (h : c < 2 ^ 32) : crc32Aux c l < 2 ^ 32 := by
  induction l generalizing c with
  | nil => exact h
  | cons a l ih =>
    simp only [crc32Aux, List.foldl_cons] at *
    exact ih (fun b hb => hl b (List.mem_cons_of_mem a hb)) _
      (crcStep8_lt _ (Nat.xor_lt_two_pow h (hl a (List.mem_cons_self a l))))

theorem crc32_lt (l : List Nat) (hl : ∀ b ∈ l, b < 2 ^ 32) : crc32 l < 2 ^ 32 := by
  unfold crc32
  exact Nat.xor_lt_two_pow (crc32Aux_lt l hl _ (by norm_num)) (by norm_num)

theorem bytesToU32_toBeBytes (n : Nat) (h : n < 2 ^ 32) :
    bytesToU32 (toBeBytes n) = n := by
  show n / 2 ^ 24 % 256 * 2 ^ 24 + n / 2 ^ 16 % 256 * 2 ^ 16 +
    n / 2 ^ 8 % 256 * 2 ^ 8 + n % 256 = n
  omega

/-- claim C5 (amended with the total-size bound the `as u32` cast of
`rest.len()` imposes): for buffers of total length below 2 ^ 32 + 4
whose length checks pass, the parser fails with CrcMismatch carrying the
recomputed (expected) and stored (actual) CRC exactly when the
recomputed CRC-32/ISO-HDLC over the checksum region differs from the
stored big-endian u32, and returns a chunk otherwise. -/
theorem parse_crc_check (buf : List Nat)
    (h12 : 12 ≤ buf.length)
    (hlen : bytesToU32 (buf.take 4) + 12 ≤ buf.length)
    (hsize : buf.length < 2 ^ 32 + 4) :
    (storedCrc buf ≠ crc32 (parseRegion buf) →
      Chunk.tryFrom buf =
        .err (.crcMismatch (crc32 (parseRegion buf)) (storedCrc buf))) ∧
    (storedCrc buf = crc32 (parseRegion buf) →
      ∃ c, Chunk.tryFrom buf = .ok c) := by
  have hchk : ¬ bytesToU32 (buf.take 4) > (buf.length - 4) % 2 ^ 32 := by
    rw [Nat.mod_eq_of_lt (by omega)]
    omega
  rw [tryFrom_eq_of_checks buf h12 hchk (by omega)]
  constructor
  · intro hne
    rw [if_pos hne]
  · intro heq
    rw [if_neg (not_ne_iff.2 heq)]
    exact ⟨_, rfl⟩

/-- Witness for C5: a buffer with declared length 0, type "RuSt" and a
zeroed CRC field fails with a CrcMismatch carrying the recomputed CRC of
the type bytes and the stored 0. -/
theorem parse_crc_check_witness :
    Chunk.tryFrom [0, 0, 0, 0, 82, 117, 83, 116, 0, 0, 0, 0] =
      .err (.crcMismatch
        (crc32 (parseRegion [0, 0, 0, 0, 82, 117, 83, 116, 0, 0, 0, 0]))
        (storedCrc [0, 0, 0, 0, 82, 117, 83, 116, 0, 0, 0, 0])) :=
  (parse_crc_check [0, 0, 0, 0, 82, 117, 83, 116, 0, 0, 0, 0]
    (by norm_num) (by decide) (by norm_num)).1 (by decide)

/-- claim C5 (counterexample): on the buffer [0,0,0,1] followed by 2 ^ 32
zero bytes, both of the spec's length checks pass (declared length 1,
with 2 ^ 32 bytes remaining after the length field) and the recomputed
CRC differs from the stored one, yet the code returns TooShort instead
of CrcMismatch, because `rest.len() as u32` wraps to 0 and the guard
`N > 0` fires. -/
theorem parse_crc_check_counterexample :
    12 ≤ ([0, 0, 0, 1] ++ List.replicate (2 ^ 32) 0 : List Nat).length ∧
    bytesToU32 (([0, 0, 0, 1] ++ List.replicate (2 ^ 32) 0 : List Nat).take 4) + 12 ≤
      ([0, 0, 0, 1] ++ List.replicate (2 ^ 32) 0 : List Nat).length ∧
    storedCrc ([0, 0, 0, 1] ++ List.replicate (2 ^ 32) 0) ≠
      crc32 (parseRegion ([0, 0, 0, 1] ++ List.replicate (2 ^ 32) 0)) ∧
    Chunk.tryFrom ([0, 0, 0, 1] ++ List.replicate (2 ^ 32) 0) = .err .tooShort := by
  have hlen : ([0, 0, 0, 1] ++ List.replicate (2 ^ 32) 0 : List Nat).length =
      4 + 2 ^ 32 := by
    rw [List.length_append, List.length_replicate]
    norm_num
  have htake : ([0, 0, 0, 1] ++ List.replicate (2 ^ 32) 0 : List Nat).take 4 =
      [0, 0, 0, 1] := List.take_left' rfl
  have hdrop : ([0, 0, 0, 1] ++ List.replicate (2 ^ 32) 0 : List Nat).drop 4 =
      List.replicate (2 ^ 32) 0 := List.drop_left' rfl
  have hN : bytesToU32 ([0, 0, 0, 1] : List Nat) = 1 := by decide
  refine ⟨by rw [hlen]; norm_num, by rw [hlen, htake, hN]; norm_num, ?_, ?_⟩
  · rw [storedCrc, parseRegion, htake, hdrop, hN, List.take_replicate,
      List.drop_replicate, List.take_replicate]
    norm_num
    decide
  · unfold Chunk.tryFrom
    rw [if_neg (by rw [hlen]; norm_num),
      rustSplitAt_some 4 _ (by rw [hlen]; norm_num)]
    simp only []
    rw [htake, hdrop, hN, List.length_replicate,
      if_pos (by norm_num)]

/-- claim C10 (amended with the total-size bound the `as u32` cast of
`rest.len()` imposes): for buffers shorter than 2 ^ 32 + 4 bytes whose
first 12 + N bytes parse successfully (N being the big-endian u32 in the
first 4 bytes), parsing the whole buffer succeeds with the identical
chunk, silently ignoring the trailing bytes. -/
theorem parse_ignores_trailing (buf : List Nat) (c : Chunk)
    (hsize : buf.length < 2 ^ 32 + 4)
    (h : Chunk.tryFrom (buf.take (12 + bytesToU32 (buf.take 4))) = .ok c) :
    Chunk.tryFrom buf = .ok c := by
  obtain ⟨h12p, hchkp, hsplitp, hcrcp⟩ := tryFrom_ok_inv _ c h
  have htake4 : (buf.take (12 + bytesToU32 (buf.take 4))).take 4 = buf.take 4 := by
    rw [List.take_take, Nat.min_def, if_pos (by omega)]
  have hplen : (buf.take (12 + bytesToU32 (buf.take 4))).length =
      min (12 + bytesToU32 (buf.take 4)) buf.length := by simp
  have hsp2 := hsplitp
  rw [htake4, hplen] at hsp2
  have hbuflen : 12 + bytesToU32 (buf.take 4) ≤ buf.length := by omega
  have hchk : ¬ bytesToU32 (buf.take 4) > (buf.length - 4) % 2 ^ 32 := by
    rw [Nat.mod_eq_of_lt (by omega)]
    omega
  have hregion : parseRegion (buf.take (12 + bytesToU32 (buf.take 4))) =
      parseRegion buf := by
    unfold parseRegion
    rw [htake4, List.drop_take, List.take_take, Nat.min_def, if_pos (by omega)]
  have hstored : storedCrc (buf.take (12 + bytesToU32 (buf.take 4))) =
      storedCrc buf := by
    unfold storedCrc
    rw [htake4, List.drop_take, List.drop_take, List.take_take]
    congr 2
    omega
  rw [tryFrom_eq_of_checks _ h12p hchkp hsplitp, if_neg (not_ne_iff.2 hcrcp)] at h
  rw [tryFrom_eq_of_checks buf (by omega) hchk (by omega),
    if_neg (not_ne_iff.2 (by rw [← hregion, ← hstored]; exact hcrcp)),
    ← h, htake4, hregion]

/-- Witness for C10: a valid 13-byte chunk encoding (declared length 1)
followed by three junk bytes parses to the same chunk as the 13-byte
prefix alone. -/
theorem parse_ignores_trailing_witness :
    Chunk.tryFrom [0, 0, 0, 1, 82, 117, 83, 116, 0, 253, 185, 23, 3, 9, 9, 9] =
      .ok ⟨1, ⟨82, 117, 83, 116⟩, [0], 4256765699⟩ :=
  parse_ignores_trailing _ _ (by decide) (by decide)

/-- claim C10 (counterexample): appending 2 ^ 32 - 9 trailing bytes to a
valid 13-byte chunk encoding makes the whole buffer 2 ^ 32 + 4 bytes
long, `rest.len() as u32` wraps to 0, and the parser reports TooShort
even though the 13-byte prefix still parses successfully, so the claim
as stated over every buffer fails. -/
theorem parse_ignores_trailing_counterexample :
    Chunk.tryFrom
      (([0, 0, 0, 1, 82, 117, 83, 116, 0, 253, 185, 23, 3] ++
          List.replicate (2 ^ 32 - 9) 0).take
        (12 + bytesToU32 (([0, 0, 0, 1, 82, 117, 83, 116, 0, 253, 185, 23, 3] ++
          List.replicate (2 ^ 32 - 9) 0).take 4))) =
      .ok ⟨1, ⟨82, 117, 83, 116⟩, [0], 4256765699⟩ ∧
    Chunk.tryFrom ([0, 0, 0, 1, 82, 117, 83, 116, 0, 253, 185, 23, 3] ++
        List.replicate (2 ^ 32 - 9) 0) = .err .tooShort := by
  have htake4 : (([0, 0, 0, 1, 82, 117, 83, 116, 0, 253, 185, 23, 3] ++
      List.replicate (2 ^ 32 - 9) 0 : List Nat)).take 4 = [0, 0, 0, 1] := by
    rw [List.take_append_of_le_length (by norm_num)]
    decide
  have hN : bytesToU32 [0, 0, 0, 1] = 1 := by decide
  have hlen : (([0, 0, 0, 1, 82, 117, 83, 116, 0, 253, 185, 23, 3] ++
      List.replicate (2 ^ 32 - 9) 0 : List Nat)).length = 2 ^ 32 + 4 := by
    rw [List.length_append, List.length_replicate]
    norm_num
  constructor
  · rw [htake4, hN, List.take_append_of_le_length (by norm_num)]
    decide
  · unfold Chunk.tryFrom
    rw [if_neg (by rw [hlen]; norm_num),
      rustSplitAt_some 4 _ (by rw [hlen]; norm_num)]
    simp only []
    rw [htake4, hN, List.drop_append_of_le_length (by norm_num),
      show ([0, 0, 0, 1, 82, 117, 83, 116, 0, 253, 185, 23, 3] : List Nat).drop 4 =
        [82, 117, 83, 116, 0, 253, 185, 23, 3] from rfl]
    have hmod9 : (([82, 117, 83, 116, 0, 253, 185, 23, 3] : List Nat) ++
        List.replicate (2 ^ 32 - 9) 0).length % 2 ^ 32 = 0 := by
      rw [List.length_append, List.length_replicate,
        show ([82, 117, 83, 116, 0, 253, 185, 23, 3] : List Nat).length = 9 from rfl]
      norm_num
    rw [if_pos (by rw [hmod9]; norm_num)]

/-- claim C1 (amended with the payload-length bound the u32 casts
impose): for every ChunkType and every byte payload of fewer than
2 ^ 32 - 8 bytes, parsing the serialization of the freshly composed
chunk succeeds and returns exactly that chunk (same length, type bytes,
payload and CRC). -/
theorem parse_new_round_trip (t : ChunkType) (d : List Nat)
    (ht : ∀ b ∈ t.bytes, b < 256) (hd : ∀ b ∈ d, b < 256)
    (hlen : d.length + 8 < 2 ^ 32) :
    Chunk.tryFrom (Chunk.new t d).as_bytes = .ok (Chunk.new t d) := by
  have hmod : d.length % 2 ^ 32 = d.length := Nat.mod_eq_of_lt (by omega)
  have hK : crc32 (t.bytes ++ d) < 2 ^ 32 := by
    refine crc32_lt _ (fun b hb => ?_)
    rcases List.mem_append.1 hb with h | h
    · exact lt_trans (ht b h) (by norm_num)
    · exact lt_trans (hd b h) (by norm_num)
  have hB : (Chunk.new t d).as_bytes =
      toBeBytes d.length ++ ((t.bytes ++ d) ++ toBeBytes (crc32 (t.bytes ++ d))) := by
    rw [chunk_new_as_bytes, hmod]
  have htbd : (t.bytes ++ d).length = d.length + 4 := by
    simp [ChunkType.bytes]
  have hlength : (Chunk.new t d).as_bytes.length = 12 + d.length := by
    rw [hB]
    simp [length_toBeBytes, ChunkType.bytes]
    omega
  have htake : (Chunk.new t d).as_bytes.take 4 = toBeBytes d.length := by
    rw [hB]
    exact List.take_left' (length_toBeBytes _)
  have hdrop : (Chunk.new t d).as_bytes.drop 4 =
      (t.bytes ++ d) ++ toBeBytes (crc32 (t.bytes ++ d)) := by
    rw [hB]
    exact List.drop_left' (length_toBeBytes _)
  have hN : bytesToU32 ((Chunk.new t d).as_bytes.take 4) = d.length := by
    rw [htake, bytesToU32_toBeBytes _ (by omega)]
  have hregion : parseRegion (Chunk.new t d).as_bytes = t.bytes ++ d := by
    rw [parseRegion, hN, hdrop, List.take_left' (by omega)]
  have hstored : storedCrc (Chunk.new t d).as_bytes = crc32 (t.bytes ++ d) := by
    rw [storedCrc, hN, hdrop, List.drop_left' (by omega),
      List.take_of_length_le (by rw [length_toBeBytes]),
      bytesToU32_toBeBytes _ hK]
  rw [tryFrom_eq_of_checks _ (by omega) ?hchk ?hsplit]
  case hchk =>
    rw [hN, hlength, Nat.mod_eq_of_lt (by omega)]
    omega
  case hsplit =>
    rw [hN, hlength]
    omega
  rw [if_neg (not_ne_iff.2 (by rw [hstored, hregion])), hN, hregion,
    chunk_new_eq, hmod]
  rfl

/-- Witness for C1 at the "RuSt" type and a three-byte payload. -/
theorem parse_new_round_trip_witness :
    Chunk.tryFrom (Chunk.new ⟨82, 117, 83, 116⟩ [1, 2, 3]).as_bytes =
      .ok (Chunk.new ⟨82, 117, 83, 116⟩ [1, 2, 3]) :=
  parse_new_round_trip ⟨82, 117, 83, 116⟩ [1, 2, 3] (by decide) (by decide)
    (by norm_num)

/-- claim C1 (counterexample): for a payload of exactly 2 ^ 32 - 8 zero
bytes, the serialized buffer has 2 ^ 32 + 4 bytes, `rest.len() as u32`
wraps to 0, and re-parsing the serialization fails with TooShort instead
of succeeding, so the round trip as stated over every payload fails. -/
theorem parse_new_round_trip_counterexample :
    Chunk.tryFrom (Chunk.new ⟨82, 117, 83, 116⟩
        (List.replicate (2 ^ 32 - 8) 0)).as_bytes = .err .tooShort := by
  have hmod : (List.replicate (2 ^ 32 - 8) (0 : Nat)).length % 2 ^ 32 =
      2 ^ 32 - 8 := by
    rw [List.length_replicate]
    norm_num
  have hB : (Chunk.new ⟨82, 117, 83, 116⟩
      (List.replicate (2 ^ 32 - 8) 0)).as_bytes =
      toBeBytes (2 ^ 32 - 8) ++
        ((ChunkType.bytes ⟨82, 117, 83, 116⟩ ++ List.replicate (2 ^ 32 - 8) 0) ++
          toBeBytes (crc32 (ChunkType.bytes ⟨82, 117, 83, 116⟩ ++
            List.replicate (2 ^ 32 - 8) 0))) := by
    rw [chunk_new_as_bytes, hmod]
  have hlength : (Chunk.new ⟨82, 117, 83, 116⟩
      (List.replicate (2 ^ 32 - 8) 0)).as_bytes.length = 2 ^ 32 + 4 := by
    rw [hB, List.length_append, List.length_append, List.length_append,
      length_toBeBytes, length_toBeBytes, List.length_replicate,
      show (ChunkType.bytes ⟨82, 117, 83, 116⟩).length = 4 from rfl]
    norm_num
  have htake : (Chunk.new ⟨82, 117, 83, 116⟩
      (List.replicate (2 ^ 32 - 8) 0)).as_bytes.take 4 = toBeBytes (2 ^ 32 - 8) := by
    rw [hB]
    exact List.take_left' (length_toBeBytes _)
  unfold Chunk.tryFrom
  rw [if_neg (by rw [hlength]; norm_num),
    rustSplitAt_some 4 _ (by rw [hlength]; norm_num)]
  simp only []
  rw [htake, bytesToU32_toBeBytes _ (by norm_num), List.length_drop, hlength,
    if_pos (by norm_num)]

/-- claim C4 (counterexample): for the 2 ^ 32 byte payload, the `as u32`
cast wraps and the stored length is 0, not the payload's byte count, so
the claim as stated over every payload fails. -/
theorem chunk_new_length_counterexample :
    (Chunk.new ⟨82, 117, 83, 116⟩ (List.replicate (2 ^ 32) 0)).length ≠
      (List.replicate (2 ^ 32) 0).length := by
  rw [chunk_new_length, List.length_replicate]
  norm_num

theorem xor_div_two (a b : Nat) : (a ^^^ b) / 2 = a / 2 ^^^ b / 2 := by
  apply Nat.eq_of_testBit_eq
  intro i
  simp [Nat.testBit_div_two, Nat.testBit_xor]

theorem xor_mod_two (a b : Nat) : (a ^^^ b) % 2 = a % 2 ^^^ b % 2 := by
  have h := Nat.testBit_xor a b 0
  simp only [Nat.testBit_zero] at h
  rcases Nat.mod_two_eq_zero_or_one a with ha | ha <;>
    rcases Nat.mod_two_eq_zero_or_one b with hb | hb <;>
      rw [ha, hb] at h ⊢ <;> simp at h ⊢ <;> omega

theorem xor_xor_cancel (x y p : Nat) : (x ^^^ p) ^^^ (y ^^^ p) = x ^^^ y := by
  rw [Nat.xor_comm y p, ← Nat.xor_assoc, Nat.xor_assoc x p p, Nat.xor_self,
    Nat.xor_zero]

theorem crcStep_xor (a b : Nat) : crcStep (a ^^^ b) = crcStep a ^^^ crcStep b := by
  have hx := xor_mod_two a b
  have hd := xor_div_two a b
  unfold crcStep
  rcases Nat.mod_two_eq_zero_or_one a with ha | ha <;>
    rcases Nat.mod_two_eq_zero_or_one b with hb | hb
  · rw [ha, hb, show (0 : Nat) ^^^ 0 = 0 from rfl] at hx
    rw [if_neg (by omega), if_neg (by omega), if_neg (by omega), hd]
  · rw [ha, hb, show (0 : Nat) ^^^ 1 = 1 from rfl] at hx
    rw [if_pos hx, if_neg (by omega), if_pos hb, hd, Nat.xor_assoc]
  · rw [ha, hb, show (1 : Nat) ^^^ 0 = 1 from rfl] at hx
    rw [if_pos hx, if_pos ha, if_neg (by omega), hd, Nat.xor_assoc,
      Nat.xor_assoc, Nat.xor_comm 0xEDB88320 (b / 2)]
  · rw [ha, hb, show (1 : Nat) ^^^ 1 = 0 from rfl] at hx
    rw [if_neg (by omega), if_pos ha, if_pos hb, hd, xor_xor_cancel]

theorem crcStep8_xor (a b : Nat) :
    crcStep8 (a ^^^ b) = crcStep8 a ^^^ crcStep8 b := by
  simp only [crcStep8, crcStep_xor]

theorem crcByte_xor (c cc b bb : Nat) :
    crcByte (c ^^^ cc) (b ^^^ bb) = crcByte c b ^^^ crcByte cc bb := by
  unfold crcByte
  rw [← crcStep8_xor]
  congr 1
  rw [Nat.xor_assoc, ← Nat.xor_assoc cc b bb, Nat.xor_comm cc b,
    Nat.xor_assoc b cc bb, ← Nat.xor_assoc]

theorem crc32Aux_xor : ∀ (m mm : List Nat), m.length = mm.length → ∀ c cc,
    crc32Aux (c ^^^ cc) (List.zipWith (· ^^^ ·) m mm) =
      crc32Aux c m ^^^ crc32Aux cc mm := by
  intro m
  induction m with
  | nil =>
    intro mm h c cc
    rw [List.length_nil] at h
    rw [List.length_eq_zero.1 h.symm]
    rfl
  | cons a m ih =>
    intro mm h c cc
    cases mm with
    | nil => simp at h
    | cons b mm =>
      simp only [List.zipWith_cons_cons, crc32Aux, List.foldl_cons]
      rw [crcByte_xor]
      exact ih mm (by simpa using h) _ _

theorem crcStep_zero : crcStep 0 = 0 := by decide

theorem crcStep_inj (a b : Nat) (ha : a < 2 ^ 32) (hb : b < 2 ^ 32)
    (h : crcStep a = crcStep b) : a = b := by
  have hP : (0xEDB88320 : Nat).testBit 31 = true := by decide
  unfold crcStep at h
  rcases Nat.mod_two_eq_zero_or_one a with ha2 | ha2 <;>
    rcases Nat.mod_two_eq_zero_or_one b with hb2 | hb2
  · rw [if_neg (by omega), if_neg (by omega)] at h
    omega
  · rw [if_neg (by omega), if_pos hb2] at h
    exfalso
    have h31a : (a / 2).testBit 31 = false := Nat.testBit_lt_two_pow (by omega)
    have h31b : (b / 2).testBit 31 = false := Nat.testBit_lt_two_pow (by omega)
    have h31 := congrArg (fun x => x.testBit 31) h
    simp only [Nat.testBit_xor, h31a, h31b, hP] at h31
    exact Bool.false_ne_true h31
  · rw [if_pos ha2, if_neg (by omega)] at h
    exfalso
    have h31a : (a / 2).testBit 31 = false := Nat.testBit_lt_two_pow (by omega)
    have h31b : (b / 2).testBit 31 = false := Nat.testBit_lt_two_pow (by omega)
    have h31 := congrArg (fun x => x.testBit 31) h
    simp only [Nat.testBit_xor, h31a, h31b, hP] at h31
    exact Bool.false_ne_true h31.symm
  · rw [if_pos ha2, if_pos hb2] at h
    have hdiv : a / 2 = b / 2 := by
      have h2 := congrArg (fun x => x ^^^ 0xEDB88320) h
      simpa only [Nat.xor_cancel_right] using h2
    omega

theorem crcStep_ne_zero (a : Nat) (ha : a < 2 ^ 32) (h : a ≠ 0) :
    crcStep a ≠ 0 := by
  intro hc
  exact h (crcStep_inj a 0 ha (by norm_num) (hc.trans crcStep_zero.symm))

theorem crcStep8_ne_zero (a : Nat) (ha : a < 2 ^ 32) (h : a ≠ 0) :
    crcStep8 a ≠ 0 := by
  have n1 := crcStep_ne_zero a ha h
  have b1 := crcStep_lt a ha
  have n2 := crcStep_ne_zero _ b1 n1
  have b2 := crcStep_lt _ b1
  have n3 := crcStep_ne_zero _ b2 n2
  have b3 := crcStep_lt _ b2
  have n4 := crcStep_ne_zero _ b3 n3
  have b4 := crcStep_lt _ b3
  have n5 := crcStep_ne_zero _ b4 n4
  have b5 := crcStep_lt _ b4
  have n6 := crcStep_ne_zero _ b5 n5
  have b6 := crcStep_lt _ b5
  have n7 := crcStep_ne_zero _ b6 n6
  have b7 := crcStep_lt _ b6
  exact crcStep_ne_zero _ b7 n7

theorem crc32Aux_replicate_zero_ne (n : Nat) : ∀ s, s ≠ 0 → s < 2 ^ 32 →
    crc32Aux s (List.replicate n 0) ≠ 0 := by
  induction n with
  | zero =>
    intro s h _
    simpa [crc32Aux] using h
  | succ n ih =>
    intro s h hlt
    rw [List.replicate_succ]
    simp only [crc32Aux, List.foldl_cons]
    rw [show crcByte s 0 = crcStep8 s by simp [crcByte]]
    exact ih _ (crcStep8_ne_zero s hlt h) (crcStep8_lt s hlt)

theorem crc32Aux_set_ne_zero : ∀ (n j k : Nat), j < n → k < 8 →
    crc32Aux 0 ((List.replicate n 0).set j (2 ^ k)) ≠ 0 := by
  intro n
  induction n with
  | zero =>
    intro j k hj _
    omega
  | succ n ih =>
    intro j k hj hk
    rw [List.replicate_succ]
    cases j with
    | zero =>
      rw [List.set_cons_zero]
      simp only [crc32Aux, List.foldl_cons]
      rw [show crcByte 0 (2 ^ k) = crcStep8 (2 ^ k) by simp [crcByte]]
      refine crc32Aux_replicate_zero_ne n _ ?_ (crcStep8_lt _ ?_)
      · exact (by decide : ∀ k2, k2 < 8 → crcStep8 (2 ^ k2) ≠ 0) k hk
      · calc (2 : Nat) ^ k ≤ 2 ^ 8 := Nat.pow_le_pow_right (by norm_num) (by omega)
        _ < 2 ^ 32 := by norm_num
    | succ j =>
      rw [List.set_cons_succ]
      simp only [crc32Aux, List.foldl_cons]
      rw [show crcByte 0 0 = 0 by decide]
      exact ih j k (by omega) hk

theorem zipWith_xor_self (l : List Nat) :
    List.zipWith (· ^^^ ·) l l = List.replicate l.length 0 := by
  induction l with
  | nil => rfl
  | cons a l ih =>
    simp only [List.zipWith_cons_cons, List.length_cons, List.replicate_succ,
      Nat.xor_self, ih]

theorem zipWith_xor_set : ∀ (l : List Nat) (j x : Nat), j < l.length →
    List.zipWith (· ^^^ ·) l (l.set j (l.getD j 0 ^^^ x)) =
      (List.replicate l.length 0).set j x := by
  intro l
  induction l with
  | nil =>
    intro j x hj
    simp at hj
  | cons a l ih =>
    intro j x hj
    cases j with
    | zero =>
      simp only [List.getD_cons_zero, List.set_cons_zero, List.zipWith_cons_cons,
        List.length_cons, List.replicate_succ]
      rw [zipWith_xor_self, Nat.xor_cancel_left]
    | succ j =>
      simp only [List.getD_cons_succ, List.set_cons_succ, List.zipWith_cons_cons,
        List.length_cons, List.replicate_succ, Nat.xor_self]
      rw [ih j x (by simpa using hj)]

/-- Single-bit error detection of the CRC model: flipping one bit of one
byte always changes the checksum. -/
theorem crc32_flip_ne (l : List Nat) (j k : Nat) (hj : j < l.length) (hk : k < 8) :
    crc32 (l.set j (l.getD j 0 ^^^ 2 ^ k)) ≠ crc32 l := by
  intro h
  have h2 : crc32Aux 0xFFFFFFFF (l.set j (l.getD j 0 ^^^ 2 ^ k)) =
      crc32Aux 0xFFFFFFFF l := by
    have h1 := congrArg (fun x => x ^^^ 0xFFFFFFFF) h
    simpa only [crc32, Nat.xor_cancel_right] using h1
  have h3 := crc32Aux_xor l (l.set j (l.getD j 0 ^^^ 2 ^ k)) (by simp)
    0xFFFFFFFF 0xFFFFFFFF
  rw [Nat.xor_self, zipWith_xor_set l j (2 ^ k) hj, h2, Nat.xor_self] at h3
  exact crc32Aux_set_ne_zero l.length j k hj hk h3

/-- claim C9: for every buffer the parser accepts and every single bit
(bit k of the byte at offset i, with 4 ≤ i < 8 + N) inside the type or
payload region, parsing the buffer with exactly that bit flipped fails
with a CrcMismatch error. -/
theorem parse_flip_bit_crc_mismatch (buf : List Nat) (c : Chunk) (i k : Nat)
    (hok : Chunk.tryFrom buf = .ok c)
    (hi4 : 4 ≤ i) (hiN : i < 8 + bytesToU32 (buf.take 4)) (hk : k < 8) :
    ∃ e a, Chunk.tryFrom (buf.set i (buf.getD i 0 ^^^ 2 ^ k)) =
      .err (.crcMismatch e a) := by
  obtain ⟨h12, hchk, hsplit, hcrc⟩ := tryFrom_ok_inv buf c hok
  have hlen4 : (buf.drop 4).length = buf.length - 4 := by simp
  have hlenset : (buf.set i (buf.getD i 0 ^^^ 2 ^ k)).length = buf.length :=
    List.length_set buf i _
  have htake4 : (buf.set i (buf.getD i 0 ^^^ 2 ^ k)).take 4 = buf.take 4 := by
    rw [List.set_take, List.set_eq_of_length_le]
    rw [List.length_take]
    omega
  have hdropset : (buf.set i (buf.getD i 0 ^^^ 2 ^ k)).drop 4 =
      (buf.drop 4).set (i - 4) (buf.getD i 0 ^^^ 2 ^ k) := by
    rw [List.drop_set, if_neg (by omega)]
  have hregion : parseRegion (buf.set i (buf.getD i 0 ^^^ 2 ^ k)) =
      (parseRegion buf).set (i - 4) (buf.getD i 0 ^^^ 2 ^ k) := by
    unfold parseRegion
    rw [htake4, hdropset, List.set_take]
  have hstored : storedCrc (buf.set i (buf.getD i 0 ^^^ 2 ^ k)) =
      storedCrc buf := by
    unfold storedCrc
    rw [htake4, hdropset, List.drop_set, if_pos (by omega)]
  have hreglen : (parseRegion buf).length = bytesToU32 (buf.take 4) + 4 := by
    unfold parseRegion
    rw [List.length_take, hlen4]
    omega
  have hgetD : buf.getD i 0 = (parseRegion buf).getD (i - 4) 0 := by
    unfold parseRegion
    rw [List.getD_eq_getElem?_getD, List.getD_eq_getElem?_getD,
      List.getElem?_take_of_lt (by omega), List.getElem?_drop]
    congr 2
    omega
  have hflip : parseRegion (buf.set i (buf.getD i 0 ^^^ 2 ^ k)) =
      (parseRegion buf).set (i - 4)
        ((parseRegion buf).getD (i - 4) 0 ^^^ 2 ^ k) := by
    rw [hregion, hgetD]
  have hne : storedCrc (buf.set i (buf.getD i 0 ^^^ 2 ^ k)) ≠
      crc32 (parseRegion (buf.set i (buf.getD i 0 ^^^ 2 ^ k))) := by
    rw [hstored, hcrc, hflip]
    exact (crc32_flip_ne (parseRegion buf) (i - 4) k (by omega) hk).symm
  rw [tryFrom_eq_of_checks _ (by rw [hlenset]; omega)
    (by rw [htake4, hlenset]; exact hchk)
    (by rw [htake4, hlenset]; exact hsplit), if_pos hne]
  exact ⟨_, _, rfl⟩

/-- Witness for C9: flipping bit 0 of the first type byte of a valid
zero-payload "RuSt" chunk buffer makes the parser report a CrcMismatch. -/
theorem parse_flip_bit_crc_mismatch_witness :
    ∃ e a, Chunk.tryFrom
      (([0, 0, 0, 0, 82, 117, 83, 116, 212, 132, 9, 60] : List Nat).set 4
        (([0, 0, 0, 0, 82, 117, 83, 116, 212, 132, 9, 60] : List Nat).getD 4 0 ^^^
          2 ^ 0)) = .err (.crcMismatch e a) :=
  parse_flip_bit_crc_mismatch [0, 0, 0, 0, 82, 117, 83, 116, 212, 132, 9, 60]
    ⟨0, ⟨82, 117, 83, 116⟩, [], 3565422908⟩ 4 0 (by decide) (by decide) (by decide)
    (by decide)

end Pngme
